import Mathlib

/-!
Shallow embedding of `src/main.cpp` (BoggsSystems/OptionChainDemo).

C++ `double` values (strike prices, premiums, market prices) are modelled as
exact rationals `ℚ`; `std::string` fields as `String`.  The global `rand()`
stream is modelled explicitly: each call to `updateOptionPrices` receives a
stream `draws : ℕ → ℕ` of raw nonnegative `rand()` results, the loop consuming
`draws i` for the `i`-th contract.  Console output is modelled as an explicit
event trace where the claims need it (premium writes followed by observer
notifications); pure printing is dropped.
-/

set_option autoImplicit false

/-- The Call/Put variant realised in C++ by the `CallOption` / `PutOption`
subclasses of the abstract `Option` base class. -/
inductive OptionKind where
  | call
  | put
deriving DecidableEq, Repr

/-- The `Option` base-class state (`strikePrice`, `premium`, `expiryDate`)
together with the variant tag that C++ encodes in the dynamic type.
Named `Opt` because `Option` is taken by Lean's core option type. -/
structure Opt where
  kind : OptionKind
  strikePrice : ℚ
  premium : ℚ
  expiryDate : String
deriving DecidableEq, Repr

/-- `Option::setPremium` (src/main.cpp line 31). -/
def setPremium (o : Opt) (prem : ℚ) : Opt :=
  { o with premium := prem }

/-- `CallOption::calculatePayoff` / `PutOption::calculatePayoff`
(src/main.cpp lines 49-51 and 66-68): virtual dispatch over the variant. -/
def calculatePayoff (o : Opt) (marketPrice : ℚ) : ℚ :=
  match o.kind with
  | .call => max 0 (marketPrice - o.strikePrice) - o.premium
  | .put => max 0 (o.strikePrice - marketPrice) - o.premium

/-- `OptionFactory::createOption` (src/main.cpp lines 74-81): `nullptr` is
modelled as `none`. -/
def createOption (type : String) (strike prem : ℚ) (expiry : String) :
    Option Opt :=
  if type = "Call" then some ⟨.call, strike, prem, expiry⟩
  else if type = "Put" then some ⟨.put, strike, prem, expiry⟩
  else none

/-- Observable effects of `OptionChain::updateOptionPrices`: a premium write
(`option->setPremium(v)` for the contract at index `idx`) or the delivery of
the zero-argument `update()` signal to the observer `obs`. -/
inductive Event where
  | setPrem (idx : ℕ) (v : ℚ)
  | update (obs : ℕ)
deriving DecidableEq, Repr

/-- The observer an event delivers `update()` to, if any. -/
def eventObs : Event → Option ℕ
  | .setPrem _ _ => none
  | .update obs => some obs

/-- `OptionChain` state (src/main.cpp lines 125-162): the owned contract
vector and the non-owning observer pointers (modelled as identifiers). -/
structure OptionChain where
  options : List Opt
  observers : List ℕ
deriving DecidableEq, Repr

/-- `OptionChain::addOption` (line 131): `push_back`. -/
def addOption (c : OptionChain) (o : Opt) : OptionChain :=
  { c with options := c.options ++ [o] }

/-- `OptionChain::registerObserver` (line 141): `push_back`. -/
def registerObserver (c : OptionChain) (obs : ℕ) : OptionChain :=
  { c with observers := c.observers ++ [obs] }

/-- `OptionChain::notifyObservers` (lines 135-139): one `update()` call per
registered observer, in vector (registration) order. -/
def notifyObservers (c : OptionChain) : List Event :=
  c.observers.map Event.update

/-- The integer `rand() % 10 - 5` computed from a raw `rand()` result `d`
(line 147).  `rand()` returns a nonnegative int, so this lies in [-5, 4]. -/
def randStep (d : ℕ) : ℤ :=
  (d % 10 : ℤ) - 5

/-- The factor `1.0 + (rand() % 10 - 5) / 100.0` applied to a premium by one
loop iteration of `updateOptionPrices` (line 147). -/
def drift (d : ℕ) : ℚ :=
  1 + (randStep d : ℚ) / 100

/-- The price-update loop body of `updateOptionPrices` (lines 146-149): the
contract at position `i` of the traversal consumes the `i`-th `rand()` draw
and has its premium multiplied by the corresponding drift factor. -/
def updateOptions (draws : ℕ → ℕ) : ℕ → List Opt → List Opt
  | _, [] => []
  | i, o :: rest =>
      setPremium o (o.premium * drift (draws i)) :: updateOptions draws (i + 1) rest

/-- The premium-write events emitted by the loop of `updateOptionPrices`, in
execution order. -/
def updateTrace (draws : ℕ → ℕ) : ℕ → List Opt → List Event
  | _, [] => []
  | i, o :: rest =>
      Event.setPrem i (o.premium * drift (draws i)) :: updateTrace draws (i + 1) rest

/-- `OptionChain::updateOptionPrices` (lines 145-151), the spec's
`updateAllPremiums()`: drift every premium, then call `notifyObservers`.
Returns the new state and the trace of observable events in order. -/
def updateOptionPrices (draws : ℕ → ℕ) (c : OptionChain) :
    OptionChain × List Event :=
  ({ c with options := updateOptions draws 0 c.options },
   updateTrace draws 0 c.options ++ notifyObservers c)

/-- `OptionChain::displaySingleQuote` (lines 153-157), the spec's
`firstQuote()`: the displayed contract is `options[0]` when the vector is
nonempty, nothing otherwise. -/
def displaySingleQuote (c : OptionChain) : Option Opt :=
  c.options.head?

/-- Premium of the contract at index `i` (0 when out of range); used to state
claims about individual registry entries without dependent indexing. -/
def premAt (c : OptionChain) (i : ℕ) : ℚ :=
  ((c.options.get? i).map Opt.premium).getD 0

/-- Premium of the first contract (0 when the registry is empty). -/
def firstPremium (c : OptionChain) : ℚ :=
  premAt c 0

/-- Repeated `updateOptionPrices` calls, each fed its own `rand()` stream
segment, keeping only the state (the spec's "call updateAllPremiums() n
times" scenario). -/
def updateMany (dss : List (ℕ → ℕ)) (c : OptionChain) : OptionChain :=
  dss.foldl (fun acc ds => (updateOptionPrices ds acc).1) c

/-- `TradeCommand::execute` (src/main.cpp lines 204-229) after input has been
read: create via the factory; on success append to the chain, otherwise leave
the chain untouched.  Returns the new chain and the printed status line. -/
def tradeExecute (c : OptionChain) (optionType : String) (strike prem : ℚ)
    (expiry : String) : OptionChain × String :=
  match createOption optionType strike prem expiry with
  | some o => (addOption c o, "Trade executed successfully.")
  | none => (c, "Invalid option type. Trade not executed.")

/-- Claim C1: for every strike `K`, premium `P`, market price `M` (and any
expiry string), the Call payoff is `max 0 (M - K) - P` and the Put payoff is
`max 0 (K - M) - P`; purity holds by construction since `calculatePayoff` is
a function of the contract and the market price alone. -/
theorem calculatePayoff_eq (K P M : ℚ) (expiry : String) :
    calculatePayoff ⟨.call, K, P, expiry⟩ M = max 0 (M - K) - P ∧
    calculatePayoff ⟨.put, K, P, expiry⟩ M = max 0 (K - M) - P :=
  ⟨rfl, rfl⟩

theorem createOption_other (t : String) (strike prem : ℚ) (expiry : String)
    (h1 : t ≠ "Call") (h2 : t ≠ "Put") :
    createOption t strike prem expiry = none := by
  simp [createOption, h1, h2]

/-- Claim C2: the factory yields a present Call contract for tag "Call" and a
present Put contract for tag "Put", carrying exactly the given strike,
premium and expiry, and yields an absent result for every other tag. -/
theorem createOption_spec (strike prem : ℚ) (expiry : String) (t : String)
    (h1 : t ≠ "Call") (h2 : t ≠ "Put") :
    createOption "Call" strike prem expiry = some ⟨.call, strike, prem, expiry⟩ ∧
    createOption "Put" strike prem expiry = some ⟨.put, strike, prem, expiry⟩ ∧
    createOption t strike prem expiry = none :=
  ⟨rfl, rfl, createOption_other t strike prem expiry h1 h2⟩

/-- Witness for C2 at strike 100, premium 4, tag "Straddle". -/
theorem createOption_spec_witness :
    createOption "Call" 100 4 "2024-12-31" =
        some ⟨.call, 100, 4, "2024-12-31"⟩ ∧
    createOption "Put" 100 4 "2024-12-31" =
        some ⟨.put, 100, 4, "2024-12-31"⟩ ∧
    createOption "Straddle" 100 4 "2024-12-31" = none :=
  createOption_spec 100 4 "2024-12-31" "Straddle" (by decide) (by decide)

theorem randStep_mem (d : ℕ) : -5 ≤ randStep d ∧ randStep d ≤ 4 := by
  unfold randStep
  have h : (d % 10 : ℕ) < 10 := Nat.mod_lt d (by norm_num)
  omega

theorem drift_le (d : ℕ) : drift d ≤ 26 / 25 := by
  have h := (randStep_mem d).2
  have h' : (randStep d : ℚ) ≤ 4 := by exact_mod_cast h
  unfold drift
  linarith

theorem drift_ge (d : ℕ) : 19 / 20 ≤ drift d := by
  have h := (randStep_mem d).1
  have h' : (-5 : ℚ) ≤ (randStep d : ℚ) := by exact_mod_cast h
  unfold drift
  linarith

theorem drift_pos (d : ℕ) : 0 < drift d := by
  have := drift_ge d
  linarith

theorem updateOptions_get? (draws : ℕ → ℕ) (l : List Opt) (i j : ℕ) :
    (updateOptions draws i l).get? j =
      (l.get? j).map fun o => setPremium o (o.premium * drift (draws (i + j))) := by
  induction l generalizing i j with
  | nil => simp [updateOptions]
  | cons o rest ih =>
      cases j with
      | zero => simp [updateOptions]
      | succ j =>
          have h := ih (i + 1) j
          simpa [updateOptions, Nat.add_assoc, Nat.add_comm, Nat.add_left_comm] using h

theorem updateOptions_length (draws : ℕ → ℕ) (i : ℕ) (l : List Opt) :
    (updateOptions draws i l).length = l.length := by
  induction l generalizing i with
  | nil => rfl
  | cons o rest ih => simp [updateOptions, ih]

theorem premAt_update (draws : ℕ → ℕ) (c : OptionChain) (i : ℕ)
    (hi : i < c.options.length) :
    premAt (updateOptionPrices draws c).1 i = premAt c i * drift (draws i) := by
  have hg := updateOptions_get? draws c.options 0 i
  have hsome : c.options.get? i = some (c.options.get ⟨i, hi⟩) :=
    List.get?_eq_get hi
  have h1 : (updateOptionPrices draws c).1.options = updateOptions draws 0 c.options := rfl
  unfold premAt
  rw [h1, hg, hsome]
  simp [setPremium]

/-- Claim C3 (amended): one `updateAllPremiums()` call replaces the premium
`p` of the contract at index `i` by `p * (1 + r / 100)` where
`r = draws i % 10 - 5` is an integer in [-5, 4]; when `p` is nonnegative the
new premium lies within `[0.95 * p, 1.04 * p]` (for a negative `p` the two
endpoints are swapped, so the claimed interval is empty). -/
theorem updateOptionPrices_premium (draws : ℕ → ℕ) (c : OptionChain) (i : ℕ)
    (hi : i < c.options.length) :
    premAt (updateOptionPrices draws c).1 i =
        premAt c i * (1 + (randStep (draws i) : ℚ) / 100) ∧
    -5 ≤ randStep (draws i) ∧ randStep (draws i) ≤ 4 ∧
    (0 ≤ premAt c i →
      19 / 20 * premAt c i ≤ premAt (updateOptionPrices draws c).1 i ∧
      premAt (updateOptionPrices draws c).1 i ≤ 26 / 25 * premAt c i) := by
  have hupd := premAt_update draws c i hi
  refine ⟨hupd, (randStep_mem (draws i)).1, (randStep_mem (draws i)).2, ?_⟩
  intro hp
  have h1 := drift_ge (draws i)
  have h2 := drift_le (draws i)
  constructor
  · calc 19 / 20 * premAt c i ≤ drift (draws i) * premAt c i :=
          mul_le_mul_of_nonneg_right h1 hp
      _ = premAt c i * drift (draws i) := mul_comm _ _
      _ = premAt (updateOptionPrices draws c).1 i := hupd.symm
  · calc premAt (updateOptionPrices draws c).1 i
          = premAt c i * drift (draws i) := hupd
      _ = drift (draws i) * premAt c i := mul_comm _ _
      _ ≤ 26 / 25 * premAt c i := mul_le_mul_of_nonneg_right h2 hp

/-- Witness for C3 (amended) on a one-contract chain with premium 4. -/
theorem updateOptionPrices_premium_witness :
    premAt (updateOptionPrices (fun _ => 7)
        { options := [⟨.put, 100, 4, "2024-12-31"⟩], observers := [] }).1 0 =
      premAt { options := [⟨.put, 100, 4, "2024-12-31"⟩], observers := [] } 0 *
        (1 + (randStep 7 : ℚ) / 100) ∧
    -5 ≤ randStep 7 ∧ randStep 7 ≤ 4 ∧
    (0 ≤ premAt { options := [⟨.put, 100, 4, "2024-12-31"⟩], observers := [] } 0 →
      19 / 20 * premAt { options := [⟨.put, 100, 4, "2024-12-31"⟩], observers := [] } 0 ≤
        premAt (updateOptionPrices (fun _ => 7)
          { options := [⟨.put, 100, 4, "2024-12-31"⟩], observers := [] }).1 0 ∧
      premAt (updateOptionPrices (fun _ => 7)
          { options := [⟨.put, 100, 4, "2024-12-31"⟩], observers := [] }).1 0 ≤
        26 / 25 * premAt { options := [⟨.put, 100, 4, "2024-12-31"⟩], observers := [] } 0) :=
  updateOptionPrices_premium (fun _ => 7)
    { options := [⟨.put, 100, 4, "2024-12-31"⟩], observers := [] } 0 (by decide)

/-- Counterexample to C3 as stated: for a contract whose premium is -1 (the
factory accepts negative premiums), the updated premium never lies within
`[0.95 * (-1), 1.04 * (-1)]`, an interval that is empty; shown concretely
with the draw stream that yields `r = -5`. -/
theorem updateOptionPrices_premium_cex :
    ¬ (19 / 20 * firstPremium { options := [⟨.put, 100, -1, "2024-12-31"⟩], observers := [] } ≤
         firstPremium (updateOptionPrices (fun _ => 0)
           { options := [⟨.put, 100, -1, "2024-12-31"⟩], observers := [] }).1 ∧
       firstPremium (updateOptionPrices (fun _ => 0)
           { options := [⟨.put, 100, -1, "2024-12-31"⟩], observers := [] }).1 ≤
         26 / 25 * firstPremium { options := [⟨.put, 100, -1, "2024-12-31"⟩], observers := [] }) := by
  intro h
  have h2 := h.2
  norm_num [firstPremium, premAt, updateOptionPrices, updateOptions, setPremium,
    drift, randStep, notifyObservers] at h2

theorem updateTrace_length (draws : ℕ → ℕ) (i : ℕ) (l : List Opt) :
    (updateTrace draws i l).length = l.length := by
  induction l generalizing i with
  | nil => rfl
  | cons o rest ih => simp [updateTrace, ih]

theorem updateTrace_obs (draws : ℕ → ℕ) (i : ℕ) (l : List Opt) :
    ∀ e ∈ updateTrace draws i l, eventObs e = none := by
  induction l generalizing i with
  | nil => intro e he; simp [updateTrace] at he
  | cons o rest ih =>
      intro e he
      rcases List.mem_cons.mp he with h | h
      · rw [h]; rfl
      · exact ih (i + 1) e h

theorem filterMap_eventObs_updateTrace (draws : ℕ → ℕ) (i : ℕ) (l : List Opt) :
    (updateTrace draws i l).filterMap eventObs = [] := by
  induction l generalizing i with
  | nil => rfl
  | cons o rest ih => simp [updateTrace, eventObs, ih]

theorem filterMap_eventObs_notify (obs : List ℕ) :
    (obs.map Event.update).filterMap eventObs = obs := by
  induction obs with
  | nil => rfl
  | cons o rest ih => simp [eventObs, ih]

/-- Claim C4: one `updateAllPremiums()` call delivers the `update()` signal to
exactly the registered observers, in registration order and once each (the
trace's delivered-observer sequence is the observer list itself), and every
delivery happens after every premium write (the first `options.length` trace
events are premium writes, the rest are precisely the notifications). -/
theorem updateOptionPrices_notifies (draws : ℕ → ℕ) (c : OptionChain) :
    (updateOptionPrices draws c).2.filterMap eventObs = c.observers ∧
    (updateOptionPrices draws c).2.drop c.options.length =
      c.observers.map Event.update ∧
    ∀ e ∈ (updateOptionPrices draws c).2.take c.options.length,
      eventObs e = none := by
  have hlen := updateTrace_length draws 0 c.options
  refine ⟨?_, ?_, ?_⟩
  · show (updateTrace draws 0 c.options ++ notifyObservers c).filterMap eventObs
        = c.observers
    rw [List.filterMap_append, filterMap_eventObs_updateTrace, List.nil_append]
    exact filterMap_eventObs_notify c.observers
  · rw [show (updateOptionPrices draws c).2 =
        updateTrace draws 0 c.options ++ notifyObservers c from rfl,
      ← hlen, List.drop_left]
    rfl
  · intro e he
    rw [show (updateOptionPrices draws c).2 =
        updateTrace draws 0 c.options ++ notifyObservers c from rfl,
      ← hlen, List.take_left] at he
    exact updateTrace_obs draws 0 c.options e he

/-- Counterexample to C5 as stated: starting from a registry that already
holds a contract C, adding A then B leaves C, not A, as the first quote, so
the "for every registry state" quantification fails. -/
theorem displaySingleQuote_cex :
    displaySingleQuote (addOption (addOption
        { options := [⟨.call, 50, 1, "2024-06-30"⟩], observers := [] }
        ⟨.call, 100, 5, "2024-12-31"⟩) ⟨.put, 100, 4, "2024-12-31"⟩) ≠
      some ⟨.call, 100, 5, "2024-12-31"⟩ := by
  decide

/-- Claim C5 (amended): the registry preserves insertion order and
`firstQuote()` returns the earliest-added contract: on an empty registry it
returns nothing; starting from the empty registry, after adding A then B it
returns A; and adding to any nonempty registry leaves the first quote
unchanged, so it always reports the earliest-added contract. -/
theorem displaySingleQuote_spec (A B : Opt) (c : OptionChain)
    (h : c.options ≠ []) :
    displaySingleQuote { options := [], observers := [] } = none ∧
    displaySingleQuote
        (addOption (addOption { options := [], observers := [] } A) B) = some A ∧
    displaySingleQuote (addOption c A) = displaySingleQuote c := by
  refine ⟨rfl, rfl, ?_⟩
  unfold displaySingleQuote addOption
  cases hc : c.options with
  | nil => exact absurd hc h
  | cons x xs => rfl

/-- Witness for C5 (amended) with concrete contracts A, B and a one-element
prior registry. -/
theorem displaySingleQuote_spec_witness :
    displaySingleQuote { options := [], observers := [] } = none ∧
    displaySingleQuote
        (addOption (addOption { options := [], observers := [] }
          ⟨.call, 100, 5, "2024-12-31"⟩) ⟨.put, 100, 4, "2024-12-31"⟩) =
      some ⟨.call, 100, 5, "2024-12-31"⟩ ∧
    displaySingleQuote (addOption
        { options := [⟨.call, 50, 1, "2024-06-30"⟩], observers := [] }
        ⟨.call, 100, 5, "2024-12-31"⟩) =
      displaySingleQuote
        { options := [⟨.call, 50, 1, "2024-06-30"⟩], observers := [] } :=
  displaySingleQuote_spec ⟨.call, 100, 5, "2024-12-31"⟩
    ⟨.put, 100, 4, "2024-12-31"⟩
    { options := [⟨.call, 50, 1, "2024-06-30"⟩], observers := [] }
    (by decide)

/-- Claim C7: when the factory rejects the tag, the attempted trade is a
no-op: the chain is returned unchanged (nothing is added) and the reported
message is the error line printed by `TradeCommand::execute`. -/
theorem tradeExecute_invalid (c : OptionChain) (t : String) (strike prem : ℚ)
    (expiry : String) (h1 : t ≠ "Call") (h2 : t ≠ "Put") :
    tradeExecute c t strike prem expiry =
      (c, "Invalid option type. Trade not executed.") := by
  unfold tradeExecute
  rw [createOption_other t strike prem expiry h1 h2]

/-- Witness for C7 with the tag "Straddle" on a nonempty chain. -/
theorem tradeExecute_invalid_witness :
    tradeExecute { options := [⟨.call, 100, 5, "2024-12-31"⟩], observers := [0] }
        "Straddle" 90 2 "2025-01-31" =
      ({ options := [⟨.call, 100, 5, "2024-12-31"⟩], observers := [0] },
       "Invalid option type. Trade not executed.") :=
  tradeExecute_invalid
    { options := [⟨.call, 100, 5, "2024-12-31"⟩], observers := [0] }
    "Straddle" 90 2 "2025-01-31" (by decide) (by decide)

theorem updateOptions_map {α : Type} (f : Opt → α)
    (hf : ∀ o p, f (setPremium o p) = f o) (draws : ℕ → ℕ) (i : ℕ)
    (l : List Opt) : (updateOptions draws i l).map f = l.map f := by
  induction l generalizing i with
  | nil => rfl
  | cons o rest ih => simp [updateOptions, hf, ih]

/-- Claim C9: `updateAllPremiums()` touches only premiums: the strike prices,
expiry dates and variants of the registry's contracts, listed in registry
order, are unchanged, the number of contracts is unchanged, and the observer
list is unchanged. -/
theorem updateOptionPrices_frame (draws : ℕ → ℕ) (c : OptionChain) :
    (updateOptionPrices draws c).1.options.map Opt.strikePrice =
        c.options.map Opt.strikePrice ∧
    (updateOptionPrices draws c).1.options.map Opt.expiryDate =
        c.options.map Opt.expiryDate ∧
    (updateOptionPrices draws c).1.options.map Opt.kind =
        c.options.map Opt.kind ∧
    (updateOptionPrices draws c).1.options.length = c.options.length ∧
    (updateOptionPrices draws c).1.observers = c.observers :=
  ⟨updateOptions_map Opt.strikePrice (fun _ _ => rfl) draws 0 c.options,
   updateOptions_map Opt.expiryDate (fun _ _ => rfl) draws 0 c.options,
   updateOptions_map Opt.kind (fun _ _ => rfl) draws 0 c.options,
   updateOptions_length draws 0 c.options, rfl⟩

/-- Claim C10: on an empty registry, `updateAllPremiums()` changes nothing
and still delivers the `update()` signal exactly once to each registered
observer, in registration order. -/
theorem updateOptionPrices_empty (draws : ℕ → ℕ) (c : OptionChain)
    (h : c.options = []) :
    (updateOptionPrices draws c).1 = c ∧
    (updateOptionPrices draws c).2 = c.observers.map Event.update := by
  obtain ⟨opts, obs⟩ := c
  simp only at h
  subst h
  exact ⟨rfl, rfl⟩

/-- Witness for C10 on an empty registry with two registered observers. -/
theorem updateOptionPrices_empty_witness :
    (updateOptionPrices (fun _ => 0) { options := [], observers := [3, 7] }).1 =
        { options := [], observers := [3, 7] } ∧
    (updateOptionPrices (fun _ => 0) { options := [], observers := [3, 7] }).2 =
        ([3, 7] : List ℕ).map Event.update :=
  updateOptionPrices_empty (fun _ => 0)
    { options := [], observers := [3, 7] } rfl

/-- The premium of a lone contract after a sequence of update calls: each
call multiplies by the drift factor of the first draw of its stream. -/
def driftFold (dss : List (ℕ → ℕ)) (p : ℚ) : ℚ :=
  dss.foldl (fun q ds => q * drift (ds 0)) p

theorem updateMany_single (dss : List (ℕ → ℕ)) (o : Opt) (obs : List ℕ) :
    updateMany dss { options := [o], observers := obs } =
      { options := [{ o with premium := driftFold dss o.premium }],
        observers := obs } := by
  induction dss generalizing o with
  | nil => rfl
  | cons ds rest ih =>
      show updateMany rest
          { options := [setPremium o (o.premium * drift (ds 0))],
            observers := obs } = _
      rw [ih]
      rfl

theorem driftFold_pos (dss : List (ℕ → ℕ)) (p : ℚ) (hp : 0 < p) :
    0 < driftFold dss p := by
  induction dss generalizing p with
  | nil => exact hp
  | cons ds rest ih => exact ih _ (mul_pos hp (drift_pos (ds 0)))

theorem driftFold_le (dss : List (ℕ → ℕ)) (p : ℚ) (hp : 0 ≤ p) :
    driftFold dss p ≤ p * (26 / 25) ^ dss.length := by
  induction dss generalizing p with
  | nil => simp [driftFold]
  | cons ds rest ih =>
      have hp' : 0 ≤ p * drift (ds 0) :=
        mul_nonneg hp (le_of_lt (drift_pos (ds 0)))
      have h1 : driftFold rest (p * drift (ds 0)) ≤
          p * drift (ds 0) * (26 / 25) ^ rest.length := ih _ hp'
      have h2 : p * drift (ds 0) * (26 / 25) ^ rest.length ≤
          p * (26 / 25) * (26 / 25) ^ rest.length := by
        have hd : p * drift (ds 0) ≤ p * (26 / 25) :=
          mul_le_mul_of_nonneg_left (drift_le (ds 0)) hp
        exact mul_le_mul_of_nonneg_right hd (pow_nonneg (by norm_num) _)
      have h3 : driftFold (ds :: rest) p = driftFold rest (p * drift (ds 0)) := rfl
      rw [h3, List.length_cons]
      calc driftFold rest (p * drift (ds 0)) ≤
            p * (26 / 25) * (26 / 25) ^ rest.length := le_trans h1 h2
        _ = p * (26 / 25) ^ (rest.length + 1) := by ring

theorem driftFold_ge (dss : List (ℕ → ℕ)) (p : ℚ) (hp : 0 ≤ p) :
    p * (19 / 20) ^ dss.length ≤ driftFold dss p := by
  induction dss generalizing p with
  | nil => simp [driftFold]
  | cons ds rest ih =>
      have hp' : 0 ≤ p * drift (ds 0) :=
        mul_nonneg hp (le_of_lt (drift_pos (ds 0)))
      have h1 : p * drift (ds 0) * (19 / 20) ^ rest.length ≤
          driftFold rest (p * drift (ds 0)) := ih _ hp'
      have h2 : p * (19 / 20) * (19 / 20) ^ rest.length ≤
          p * drift (ds 0) * (19 / 20) ^ rest.length := by
        have hd : p * (19 / 20) ≤ p * drift (ds 0) :=
          mul_le_mul_of_nonneg_left (drift_ge (ds 0)) hp
        exact mul_le_mul_of_nonneg_right hd (pow_nonneg (by norm_num) _)
      have h3 : driftFold (ds :: rest) p = driftFold rest (p * drift (ds 0)) := rfl
      rw [h3, List.length_cons]
      calc p * (19 / 20) ^ (rest.length + 1) =
            p * (19 / 20) * (19 / 20) ^ rest.length := by ring
        _ ≤ driftFold rest (p * drift (ds 0)) := le_trans h2 h1

/-- Counterexample to C6 as stated: no contract created with a positive
premium can ever have a negative premium, under any sequence of
`updateAllPremiums()` draws — the drift is multiplicative with factors in
[0.95, 1.04], not an unbounded-below additive random walk. -/
theorem premium_negative_cex :
    ¬ ∃ (k : OptionKind) (strike prem : ℚ) (expiry : String)
        (dss : List (ℕ → ℕ)),
        0 < prem ∧
        firstPremium (updateMany dss
          { options := [⟨k, strike, prem, expiry⟩], observers := [] }) < 0 := by
  rintro ⟨k, strike, prem, expiry, dss, hp, hneg⟩
  rw [updateMany_single] at hneg
  have h2 : driftFold dss prem < 0 := hneg
  have h3 := driftFold_pos dss prem hp
  linarith

/-- Claim C6 (amended): the premium drift is multiplicative (each call
multiplies the premium by a factor in [0.95, 1.04]), so it preserves sign: a
contract created with a positive premium still has a positive premium after
every sequence of `updateAllPremiums()` calls; a negative premium can arise
only from a contract created with a negative premium (which the factory does
accept). -/
theorem premium_stays_positive (o : Opt) (dss : List (ℕ → ℕ)) (obs : List ℕ)
    (h : 0 < o.premium) :
    0 < firstPremium (updateMany dss { options := [o], observers := obs }) := by
  rw [updateMany_single]
  exact driftFold_pos dss o.premium h

/-- Witness for C6 (amended): Call(100, 5) stays positive after two updates. -/
theorem premium_stays_positive_witness :
    0 < firstPremium (updateMany [fun _ => 0, fun _ => 9]
        { options := [⟨.call, 100, 5, "2024-12-31"⟩], observers := [] }) :=
  premium_stays_positive ⟨.call, 100, 5, "2024-12-31"⟩
    [fun _ => 0, fun _ => 9] [] (by decide)

/-- The scenario registry of section 8 of the spec: the factory's
Call(strike 100, premium 5, expiry 2024-12-31) added to an empty chain. -/
def scenarioChain : OptionChain :=
  { options := (createOption "Call" 100 5 "2024-12-31").toList,
    observers := [] }

/-- Claim C8: starting from a registry holding the single Call contract with
strike 100 and premium 5, after 100 `updateAllPremiums()` calls — whatever
the random draws — the premium lies between `5 * 0.95^100` and
`5 * 1.04^100`. -/
theorem scenario_bounds (dss : List (ℕ → ℕ)) (h : dss.length = 100) :
    5 * (19 / 20 : ℚ) ^ 100 ≤ firstPremium (updateMany dss scenarioChain) ∧
    firstPremium (updateMany dss scenarioChain) ≤ 5 * (26 / 25 : ℚ) ^ 100 := by
  have hc : scenarioChain =
      { options := [⟨.call, 100, 5, "2024-12-31"⟩], observers := [] } := by
    rfl
  rw [hc, updateMany_single]
  have h1 := driftFold_ge dss 5 (by norm_num)
  have h2 := driftFold_le dss 5 (by norm_num)
  rw [h] at h1 h2
  exact ⟨h1, h2⟩

/-- Witness for C8 with 100 copies of the all-zero draw stream. -/
theorem scenario_bounds_witness :
    5 * (19 / 20 : ℚ) ^ 100 ≤
        firstPremium (updateMany (List.replicate 100 (fun _ => 0)) scenarioChain) ∧
    firstPremium (updateMany (List.replicate 100 (fun _ => 0)) scenarioChain) ≤
        5 * (26 / 25 : ℚ) ^ 100 :=
  scenario_bounds (List.replicate 100 (fun _ => 0)) (by simp)
